import Mathlib

/-!
Verification of the unit-engine contract of a system-and-service manager.

The repository's primary source is the unit engine's header: it fixes the
data model (dependency provenance masks, the `UnitDependencyInfo` packed
edge value, write flags, active-state classification macros, the `Unit`
record with its queue flags) and declares the engine's operations.  The
operations' bodies are not part of the staged sources, so they are modelled
here from the specification's own description and the properties claimed of
them are settled against those models; the enumerations and inline
predicates present in the header are translated directly.

Machine integers are modelled as `Nat` with explicit masking where overflow
or truncation matters; hashmaps become functions into `Option`; intrusive
lists become `List`.
-/

namespace Systemd

abbrev Mask := Nat
abbrev UnitId := Nat

/-- Modelled from the spec: the dependency kinds of the unit engine
(`UnitDependency` in the sources, whose enum lives outside the staged
header).  The spec lists each kind with its symmetric inverse. -/
inductive UnitDependency where
  | requiresDep | requiredBy
  | requisite | requisiteOf
  | wants | wantedBy
  | bindsTo | boundBy
  | partOf | consistsOf
  | upholds | upheldBy
  | conflicts | conflictedBy
  | before | after
  | onFailure | onFailureOf
  | triggers | triggeredBy
  | propagatesReloadTo | reloadPropagatedFrom
  | joinsNamespaceOf
  | references | referencedBy
  deriving DecidableEq

/-- Modelled from the spec: the inverse of every dependency kind
("each with a symmetric inverse kind the engine maintains automatically"). -/
def unit_dependency_inverse : UnitDependency → UnitDependency
  | .requiresDep => .requiredBy
  | .requiredBy => .requiresDep
  | .requisite => .requisiteOf
  | .requisiteOf => .requisite
  | .wants => .wantedBy
  | .wantedBy => .wants
  | .bindsTo => .boundBy
  | .boundBy => .bindsTo
  | .partOf => .consistsOf
  | .consistsOf => .partOf
  | .upholds => .upheldBy
  | .upheldBy => .upholds
  | .conflicts => .conflictedBy
  | .conflictedBy => .conflicts
  | .before => .after
  | .after => .before
  | .onFailure => .onFailureOf
  | .onFailureOf => .onFailure
  | .triggers => .triggeredBy
  | .triggeredBy => .triggers
  | .propagatesReloadTo => .reloadPropagatedFrom
  | .reloadPropagatedFrom => .propagatesReloadTo
  | .joinsNamespaceOf => .joinsNamespaceOf
  | .references => .referencedBy
  | .referencedBy => .references

theorem unit_dependency_inverse_involutive (k : UnitDependency) :
    unit_dependency_inverse (unit_dependency_inverse k) = k := by
  cases k <;> rfl

theorem unit_dependency_inverse_inj {a b : UnitDependency}
    (h : unit_dependency_inverse a = unit_dependency_inverse b) : a = b := by
  have h2 := congrArg unit_dependency_inverse h
  rwa [unit_dependency_inverse_involutive, unit_dependency_inverse_involutive] at h2

/-- For each dependency kind, a unit's `dependencies[kind]` hashmap maps the
peer unit to a `UnitDependencyInfo`: an origin-side mask and a
destination-side mask.  The whole graph is the family of these maps. -/
def DepGraph := UnitId → UnitDependency → UnitId → Option (Mask × Mask)

/-- Inserting into a `dependencies` hashmap: a fresh entry starts from zero
masks, an existing entry has the new bits OR-merged in (the add operation is
idempotent and accumulates provenance). -/
def udi_merge : Option (Mask × Mask) → Mask → Mask → Option (Mask × Mask)
  | none, om, dm => some (om, dm)
  | some (o, d), om, dm => some (o ||| om, d ||| dm)

/-- Point update of one `dependencies[k]` hashmap entry. -/
def dep_put (g : DepGraph) (a : UnitId) (k : UnitDependency) (b : UnitId)
    (om dm : Mask) : DepGraph :=
  fun a' k' b' => if a' = a ∧ k' = k ∧ b' = b then udi_merge (g a k b) om dm else g a' k' b'

/-- Modelled from the spec: `unit_add_dependency(u, d, other, _, mask)`
(body not in the staged sources).  Adding `u -d→ other` records `mask` on
the origin side of `u`'s entry for `other`, and atomically records `mask` on
the destination side of `other`'s entry for `u` under the inverse kind. -/
def unit_add_dependency (g : DepGraph) (u : UnitId) (d : UnitDependency)
    (other : UnitId) (mask : Mask) : DepGraph :=
  dep_put (dep_put g u d other mask 0) other (unit_dependency_inverse d) u 0 mask

def empty_graph : DepGraph := fun _ _ _ => none

/-- Run a whole sequence of `unit_add_dependency` calls. -/
def apply_adds : DepGraph → List (UnitId × UnitDependency × UnitId × Mask) → DepGraph
  | g, [] => g
  | g, (u, d, o, m) :: rest => apply_adds (unit_add_dependency g u d o m) rest

/-- The symmetry invariant: the entry for `A` in `B`'s map under the inverse
kind is exactly the mirrored (swapped) entry for `B` in `A`'s map. -/
def DepSymm (g : DepGraph) : Prop :=
  ∀ a k b, g b (unit_dependency_inverse k) a = Option.map Prod.swap (g a k b)

theorem empty_graph_symm : DepSymm empty_graph := by
  intro a k b
  rfl

theorem unit_add_dependency_symm (g : DepGraph) (hg : DepSymm g) (u : UnitId)
    (d : UnitDependency) (v : UnitId) (m : Mask) :
    DepSymm (unit_add_dependency g u d v m) := by
  intro a k b
  simp only [unit_add_dependency, dep_put]
  by_cases hP1 : a = u ∧ k = d ∧ b = v
  · obtain ⟨rfl, rfl, rfl⟩ := hP1
    by_cases hD : a = b ∧ unit_dependency_inverse k = k
    · -- degenerate: a self edge of a self-inverse kind, both writes hit one entry
      obtain ⟨rfl, hKk⟩ := hD
      simp only [hKk, and_self, if_true, true_and, and_true, if_pos rfl]
      have hm := hg a k a
      rw [hKk] at hm
      rcases hE : g a k a with _ | ⟨x, y⟩
      · simp [udi_merge]
      · rw [hE] at hm
        have hxy : x = y := by
          have h2 := hm
          simp [Prod.swap] at h2
          exact h2.1
        subst hxy
        simp [udi_merge]
    · -- plain entry written by the first update, its mirror by the second
      have hc1 : b = b ∧ unit_dependency_inverse k = unit_dependency_inverse k ∧ a = a :=
        ⟨rfl, rfl, rfl⟩
      have hc2 : ¬(b = a ∧ unit_dependency_inverse k = k ∧ a = b) := by
        rintro ⟨h1, h2, h3⟩
        exact hD ⟨h3, h2⟩
      have hc3 : ¬(a = b ∧ k = unit_dependency_inverse k ∧ b = a) := by
        rintro ⟨h1, h2, h3⟩
        exact hD ⟨h1, h2.symm⟩
      have hc4 : a = a ∧ k = k ∧ b = b := ⟨rfl, rfl, rfl⟩
      rw [if_pos hc1, if_neg hc2, if_neg hc3, if_pos hc4]
      rw [hg a k b]
      rcases g a k b with _ | ⟨x, y⟩
      · simp [udi_merge]
      · simp [udi_merge]
  · by_cases hP2 : a = v ∧ k = unit_dependency_inverse d ∧ b = u
    · -- entry written by the second update, its mirror by the first
      obtain ⟨rfl, rfl, rfl⟩ := hP2
      have hnd : ¬(a = b ∧ unit_dependency_inverse d = d) := by
        rintro ⟨h1, h2⟩
        exact hP1 ⟨h1, h2, h1.symm⟩
      have hc1 : ¬(b = a ∧
          unit_dependency_inverse (unit_dependency_inverse d) = unit_dependency_inverse d ∧
          a = b) := by
        rintro ⟨h1, h2, h3⟩
        rw [unit_dependency_inverse_involutive] at h2
        exact hnd ⟨h3, h2.symm⟩
      have hc2 : b = b ∧ unit_dependency_inverse (unit_dependency_inverse d) = d ∧ a = a :=
        ⟨rfl, unit_dependency_inverse_involutive d, rfl⟩
      have hc3 : a = a ∧ unit_dependency_inverse d = unit_dependency_inverse d ∧ b = b :=
        ⟨rfl, rfl, rfl⟩
      have hc4 : ¬(a = b ∧ unit_dependency_inverse d = d ∧ b = a) := by
        rintro ⟨h1, h2, h3⟩
        exact hnd ⟨h1, h2⟩
      rw [if_neg hc1, if_neg hc4, if_pos hc2, if_pos hc3]
      have hm := hg a (unit_dependency_inverse d) b
      rw [unit_dependency_inverse_involutive] at hm
      rw [hm]
      rcases g a (unit_dependency_inverse d) b with _ | ⟨x, y⟩
      · simp [udi_merge]
      · simp [udi_merge]
    · -- an entry untouched by either write
      have hc1 : ¬(b = v ∧ unit_dependency_inverse k = unit_dependency_inverse d ∧ a = u) := by
        rintro ⟨h1, h2, h3⟩
        exact hP1 ⟨h3, unit_dependency_inverse_inj h2, h1⟩
      have hc2 : ¬(b = u ∧ unit_dependency_inverse k = d ∧ a = v) := by
        rintro ⟨h1, h2, h3⟩
        refine hP2 ⟨h3, ?_, h1⟩
        have := congrArg unit_dependency_inverse h2
        rwa [unit_dependency_inverse_involutive] at this
      have hc3 : ¬(a = v ∧ k = unit_dependency_inverse d ∧ b = u) := hP2
      have hc4 : ¬(a = u ∧ k = d ∧ b = v) := hP1
      rw [if_neg hc1, if_neg hc2, if_neg hc3, if_neg hc4]
      exact hg a k b

theorem apply_adds_symm (ops : List (UnitId × UnitDependency × UnitId × Mask))
    (g : DepGraph) (hg : DepSymm g) : DepSymm (apply_adds g ops) := by
  induction ops generalizing g with
  | nil => exact hg
  | cons p rest ih =>
    obtain ⟨u, d, o, m⟩ := p
    exact ih (unit_add_dependency g u d o m) (unit_add_dependency_symm g hg u d o m)

/-- C1: after any sequence of `unit_add_dependency` calls starting from the
empty graph, `B` is a key of `A`'s `dependencies[k]` hashmap iff `A` is a key
of `B`'s `dependencies[inverse k]` hashmap, and the provenance stored on
`B`'s side is exactly the mirrored (origin/destination swapped) pair of the
provenance on `A`'s side. -/
theorem c1_dependency_edges_symmetric
    (ops : List (UnitId × UnitDependency × UnitId × Mask)) (a : UnitId)
    (k : UnitDependency) (b : UnitId) :
    ((apply_adds empty_graph ops a k b).isSome ↔
      (apply_adds empty_graph ops b (unit_dependency_inverse k) a).isSome)
    ∧ apply_adds empty_graph ops b (unit_dependency_inverse k) a
        = Option.map Prod.swap (apply_adds empty_graph ops a k b) := by
  have hs := apply_adds_symm ops empty_graph empty_graph_symm
  refine ⟨?_, hs a k b⟩
  rw [hs a k b]
  cases apply_adds empty_graph ops a k b <;> simp

/-! ### Edge provenance constants (`UnitDependencyMask`, `UnitDependencyInfo`) -/

def UNIT_DEPENDENCY_FILE : Mask := 1 <<< 0
def UNIT_DEPENDENCY_IMPLICIT : Mask := 1 <<< 1
def UNIT_DEPENDENCY_DEFAULT : Mask := 1 <<< 2
def UNIT_DEPENDENCY_UDEV : Mask := 1 <<< 3
def UNIT_DEPENDENCY_PATH : Mask := 1 <<< 4
def UNIT_DEPENDENCY_MOUNTINFO_IMPLICIT : Mask := 1 <<< 5
def UNIT_DEPENDENCY_MOUNTINFO_DEFAULT : Mask := 1 <<< 6
def UNIT_DEPENDENCY_PROC_SWAP : Mask := 1 <<< 7
def UNIT_DEPENDENCY_MASK_FULL : Mask := (1 <<< 8) - 1

/-- The eight dependency reasons of the `UnitDependencyMask` enum, in the
order the header declares them. -/
def unit_dependency_masks : List Mask :=
  [UNIT_DEPENDENCY_FILE, UNIT_DEPENDENCY_IMPLICIT, UNIT_DEPENDENCY_DEFAULT,
   UNIT_DEPENDENCY_UDEV, UNIT_DEPENDENCY_PATH, UNIT_DEPENDENCY_MOUNTINFO_IMPLICIT,
   UNIT_DEPENDENCY_MOUNTINFO_DEFAULT, UNIT_DEPENDENCY_PROC_SWAP]

/-- `UnitDependencyInfo`: two 16-bit bitfields (`origin_mask`,
`destination_mask`) packed into the one word-sized `data` value the
dependency hashmaps store inline.  Bitfield assignment truncates to 16
bits, hence the explicit `% 65536`. -/
def udi_pack (origin_mask destination_mask : Nat) : Nat :=
  origin_mask % 65536 + destination_mask % 65536 * 65536

/-- Reading the `origin_mask` bitfield back out of a packed `data` value. -/
def udi_origin (data : Nat) : Nat := data % 65536

/-- Reading the `destination_mask` bitfield back out of a packed `data`
value. -/
def udi_destination (data : Nat) : Nat := data / 65536 % 65536

/-- C5: the dependency reasons are exactly the eight listed bits, pairwise
disjoint single bits whose union is `(1 <<< 8) - 1`; each mask fits in the
16-bit bitfield, and two 16-bit masks pack into one `data` value below
`2 ^ 32 = 4294967296` — within a machine word (`2 ^ 64` on LP64, and
exactly 32 bits on ILP32) — from which both bitfields read back exactly. -/
theorem c5_edge_provenance_representation :
    (unit_dependency_masks.foldr (fun x y => x ||| y) 0 = UNIT_DEPENDENCY_MASK_FULL)
    ∧ UNIT_DEPENDENCY_MASK_FULL = (1 <<< 8) - 1
    ∧ List.Pairwise (fun x y => x ≠ y ∧ x &&& y = 0) unit_dependency_masks
    ∧ (∀ x ∈ unit_dependency_masks, x ≠ 0 ∧ x &&& (x - 1) = 0 ∧ x < 65536)
    ∧ (∀ o d : Nat, udi_pack o d < 4294967296
        ∧ (4294967296 : Nat) ≤ 18446744073709551616
        ∧ udi_origin (udi_pack o d) = o % 65536
        ∧ udi_destination (udi_pack o d) = d % 65536) := by
  refine ⟨by decide, by decide, by decide, by decide, ?_⟩
  intro o d
  simp only [udi_pack, udi_origin, udi_destination]
  omega

/-! ### Unit write flags (`UnitWriteFlags`, `UNIT_WRITE_FLAGS_NOOP`) -/

def UNIT_RUNTIME : Nat := 1 <<< 0
def UNIT_PERSISTENT : Nat := 1 <<< 1
def UNIT_PRIVATE : Nat := 1 <<< 2
def UNIT_ESCAPE_SPECIFIERS : Nat := 1 <<< 3
def UNIT_ESCAPE_C : Nat := 1 <<< 4

/-- `UNIT_WRITE_FLAGS_NOOP(flags)`: neither persistent nor runtime storage
was requested, i.e. this is a check invocation only. -/
def UNIT_WRITE_FLAGS_NOOP (flags : Nat) : Bool :=
  flags &&& (UNIT_RUNTIME ||| UNIT_PERSISTENT) == 0

/-- A `UnitWriteFlags` value as the OR of its five flag bits. -/
def unit_write_flags_of (runtime persistent priv escSpec escC : Bool) : Nat :=
  (if runtime then UNIT_RUNTIME else 0)
    ||| (if persistent then UNIT_PERSISTENT else 0)
    ||| (if priv then UNIT_PRIVATE else 0)
    ||| (if escSpec then UNIT_ESCAPE_SPECIFIERS else 0)
    ||| (if escC then UNIT_ESCAPE_C else 0)

/-- C9: `UNIT_WRITE_FLAGS_NOOP` is true exactly when neither `UNIT_RUNTIME`
nor `UNIT_PERSISTENT` is set, and the `UNIT_PRIVATE`,
`UNIT_ESCAPE_SPECIFIERS` and `UNIT_ESCAPE_C` bits have no influence on it. -/
theorem c9_write_flags_noop (r p a b c a' b' c' : Bool) :
    (UNIT_WRITE_FLAGS_NOOP (unit_write_flags_of r p a b c) = (!r && !p))
    ∧ UNIT_WRITE_FLAGS_NOOP (unit_write_flags_of r p a b c)
        = UNIT_WRITE_FLAGS_NOOP (unit_write_flags_of r p a' b' c') := by
  revert r p a b c a' b' c'
  decide

/-! ### High-level active-state classification -/

/-- Modelled from the spec: the high-level unit states (`UnitActiveState`,
whose enum lives outside the staged header; the spec lists `inactive,
activating, active, reloading, deactivating, failed, maintenance`). -/
inductive UnitActiveState where
  | active
  | reloading
  | inactive
  | failed
  | activating
  | deactivating
  | maintenance
  deriving DecidableEq, Fintype

def UNIT_IS_ACTIVE_OR_RELOADING (t : UnitActiveState) : Bool :=
  t == .active || t == .reloading

def UNIT_IS_ACTIVE_OR_ACTIVATING (t : UnitActiveState) : Bool :=
  t == .active || t == .activating || t == .reloading

def UNIT_IS_INACTIVE_OR_DEACTIVATING (t : UnitActiveState) : Bool :=
  t == .inactive || t == .failed || t == .deactivating

def UNIT_IS_INACTIVE_OR_FAILED (t : UnitActiveState) : Bool :=
  t == .inactive || t == .failed

/-- C10: `UNIT_IS_ACTIVE_OR_ACTIVATING` holds exactly on
`{active, activating, reloading}` (reloading counts as active-side),
`UNIT_IS_INACTIVE_OR_DEACTIVATING` exactly on
`{inactive, failed, deactivating}`, no state satisfies both,
`UNIT_IS_INACTIVE_OR_FAILED` implies `UNIT_IS_INACTIVE_OR_DEACTIVATING`,
and `UNIT_IS_ACTIVE_OR_RELOADING` implies `UNIT_IS_ACTIVE_OR_ACTIVATING`. -/
theorem c10_state_classification (t : UnitActiveState) :
    (UNIT_IS_ACTIVE_OR_ACTIVATING t = true
        ↔ (t = .active ∨ t = .activating ∨ t = .reloading))
    ∧ (UNIT_IS_INACTIVE_OR_DEACTIVATING t = true
        ↔ (t = .inactive ∨ t = .failed ∨ t = .deactivating))
    ∧ ¬(UNIT_IS_ACTIVE_OR_ACTIVATING t = true
        ∧ UNIT_IS_INACTIVE_OR_DEACTIVATING t = true)
    ∧ (UNIT_IS_INACTIVE_OR_FAILED t = true → UNIT_IS_INACTIVE_OR_DEACTIVATING t = true)
    ∧ (UNIT_IS_ACTIVE_OR_RELOADING t = true → UNIT_IS_ACTIVE_OR_ACTIVATING t = true) := by
  revert t
  decide

/-! ### Garbage-collection eligibility (`unit_may_gc`, `CollectMode`) -/

/-- `CollectMode`: tweaking the GC logic. -/
inductive CollectMode where
  | inactive
  | inactiveOrFailed
  deriving DecidableEq

/-- The slice of a `Unit` that `unit_may_gc` inspects: installed job,
high-level active state, incoming `UnitRef`s (`refs_by_target`), the
`perpetual` flag, watched PIDs, the per-type `may_gc` vtable callback
(absent for types without one), and `collect_mode`. -/
structure GcUnit where
  job : Option Nat
  active_state : UnitActiveState
  refs_by_target : List Nat
  perpetual : Bool
  pids : List Nat
  vtable_may_gc : Option Bool
  collect_mode : CollectMode

/-- Modelled from the spec: `unit_may_gc(u)` (body not in the staged
sources).  True when the unit has no job, is stopped as far as its
`collect_mode` demands (`inactive` collects only from the inactive state,
`inactive_or_failed` also from failed), is not referenced by any `UnitRef`,
is not perpetual, watches no PIDs, and the per-type callback (when the type
has one) agrees. -/
def unit_may_gc (u : GcUnit) : Bool :=
  u.job.isNone
    && (match u.collect_mode with
        | .inactive => u.active_state == .inactive
        | .inactiveOrFailed => u.active_state == .inactive || u.active_state == .failed)
    && u.refs_by_target.isEmpty
    && !u.perpetual
    && u.pids.isEmpty
    && (match u.vtable_may_gc with
        | some b => b
        | none => true)

/-- C4: `unit_may_gc` returns true exactly when the unit has no job, is not
active, has no incoming `UnitRef`, is not perpetual, watches no PIDs, the
per-type callback (when present) agrees, and its state is one
`collect_mode` collects from: only `inactive` under `COLLECT_INACTIVE`,
also `failed` under `COLLECT_INACTIVE_OR_FAILED`. -/
theorem c4_gc_eligibility (u : GcUnit) :
    unit_may_gc u = true ↔
      (u.job = none
        ∧ u.active_state ≠ .active
        ∧ u.refs_by_target = []
        ∧ u.perpetual = false
        ∧ u.pids = []
        ∧ (∀ b, u.vtable_may_gc = some b → b = true)
        ∧ (u.collect_mode = .inactive → u.active_state = .inactive)
        ∧ (u.collect_mode = .inactiveOrFailed →
            (u.active_state = .inactive ∨ u.active_state = .failed))) := by
  obtain ⟨job, st, refs, perp, pids, vt, cm⟩ := u
  cases cm <;> cases st <;> cases job <;> cases perp <;> rcases vt with _ | b <;>
    simp [unit_may_gc, List.isEmpty_iff, and_assoc]

/-! ### Queue membership flags -/

/-- The engine's nine named queues. -/
inductive EngineQueue where
  | load
  | dbus
  | cleanup
  | gc
  | cgroupRealize
  | cgroupEmpty
  | cgroupOom
  | targetDeps
  | stopWhenUnneeded
  deriving DecidableEq

/-- The queue linkage of the engine: per queue the intrusive list of linked
units, per unit and queue the `in_Q` membership boolean of the `Unit`
record. -/
structure QueueState where
  qlist : EngineQueue → List UnitId
  qflag : UnitId → EngineQueue → Bool

def queue_init : QueueState := ⟨fun _ => [], fun _ _ => false⟩

/-- Modelled from the spec: an `unit_add_to_*_queue` operation (bodies not
in the staged sources).  A unit already flagged is left alone; otherwise it
is linked onto the queue's list and its `in_Q` flag is set, together. -/
def unit_add_to_queue (s : QueueState) (q : EngineQueue) (u : UnitId) : QueueState :=
  if s.qflag u q then s
  else
    { qlist := fun q' => if q' = q then u :: s.qlist q' else s.qlist q'
      qflag := fun u' q' => if u' = u ∧ q' = q then true else s.qflag u' q' }

/-- Modelled from the spec: dequeueing (on dispatch or destruction).  A unit
not flagged is not on the list and nothing happens; otherwise it is unlinked
and its `in_Q` flag is cleared, together. -/
def unit_remove_from_queue (s : QueueState) (q : EngineQueue) (u : UnitId) : QueueState :=
  if s.qflag u q then
    { qlist := fun q' => if q' = q then (s.qlist q').erase u else s.qlist q'
      qflag := fun u' q' => if u' = u ∧ q' = q then false else s.qflag u' q' }
  else s

inductive QueueOp where
  | add (q : EngineQueue) (u : UnitId)
  | remove (q : EngineQueue) (u : UnitId)

def queue_step (s : QueueState) : QueueOp → QueueState
  | .add q u => unit_add_to_queue s q u
  | .remove q u => unit_remove_from_queue s q u

def queue_run : QueueState → List QueueOp → QueueState
  | s, [] => s
  | s, op :: rest => queue_run (queue_step s op) rest

/-- Queue/flag coherence with the bookkeeping fact (no duplicate linkage)
needed to preserve it. -/
def QueueCoherent (s : QueueState) : Prop :=
  ∀ q u, (u ∈ s.qlist q ↔ s.qflag u q = true) ∧ (s.qlist q).Nodup

theorem queue_init_coherent : QueueCoherent queue_init := by
  intro q u
  simp [queue_init]

theorem unit_add_to_queue_qlist (s : QueueState) (q : EngineQueue) (u : UnitId)
    (q' : EngineQueue) :
    (unit_add_to_queue s q u).qlist q'
      = if s.qflag u q then s.qlist q'
        else if q' = q then u :: s.qlist q' else s.qlist q' := by
  by_cases hf : s.qflag u q <;> simp [unit_add_to_queue, hf]

theorem unit_add_to_queue_qflag (s : QueueState) (q : EngineQueue) (u : UnitId)
    (u' : UnitId) (q' : EngineQueue) :
    (unit_add_to_queue s q u).qflag u' q'
      = if s.qflag u q then s.qflag u' q'
        else if u' = u ∧ q' = q then true else s.qflag u' q' := by
  by_cases hf : s.qflag u q <;> simp [unit_add_to_queue, hf]

theorem unit_remove_from_queue_qlist (s : QueueState) (q : EngineQueue) (u : UnitId)
    (q' : EngineQueue) :
    (unit_remove_from_queue s q u).qlist q'
      = if s.qflag u q then (if q' = q then (s.qlist q').erase u else s.qlist q')
        else s.qlist q' := by
  by_cases hf : s.qflag u q <;> simp [unit_remove_from_queue, hf]

theorem unit_remove_from_queue_qflag (s : QueueState) (q : EngineQueue) (u : UnitId)
    (u' : UnitId) (q' : EngineQueue) :
    (unit_remove_from_queue s q u).qflag u' q'
      = if s.qflag u q then (if u' = u ∧ q' = q then false else s.qflag u' q')
        else s.qflag u' q' := by
  by_cases hf : s.qflag u q <;> simp [unit_remove_from_queue, hf]

theorem unit_add_to_queue_coherent (s : QueueState) (hs : QueueCoherent s)
    (q : EngineQueue) (u : UnitId) : QueueCoherent (unit_add_to_queue s q u) := by
  intro q' u'
  rw [unit_add_to_queue_qlist, unit_add_to_queue_qflag]
  by_cases hf : s.qflag u q
  · rw [if_pos hf, if_pos hf]
    exact hs q' u'
  · rw [if_neg hf, if_neg hf]
    by_cases hq : q' = q
    · subst hq
      rw [if_pos rfl]
      constructor
      · by_cases hu : u' = u
        · subst hu
          simp
        · rw [if_neg (by simp [hu])]
          simp only [List.mem_cons, hu, false_or]
          exact (hs q' u').1
      · refine List.Nodup.cons ?_ (hs q' u').2
        intro hmem
        exact hf ((hs q' u).1.mp hmem)
    · rw [if_neg hq, if_neg (by simp [hq])]
      exact hs q' u'
  -- both branches preserve list Nodup and the membership/flag equivalence

theorem unit_remove_from_queue_coherent (s : QueueState) (hs : QueueCoherent s)
    (q : EngineQueue) (u : UnitId) : QueueCoherent (unit_remove_from_queue s q u) := by
  intro q' u'
  rw [unit_remove_from_queue_qlist, unit_remove_from_queue_qflag]
  by_cases hf : s.qflag u q
  · rw [if_pos hf, if_pos hf]
    by_cases hq : q' = q
    · subst hq
      rw [if_pos rfl]
      constructor
      · by_cases hu : u' = u
        · subst hu
          rw [if_pos ⟨rfl, rfl⟩]
          simp [List.Nodup.mem_erase_iff (hs q' u').2]
        · rw [if_neg (by simp [hu])]
          rw [List.Nodup.mem_erase_iff (hs q' u').2]
          rw [(hs q' u').1]
          simp [hu]
      · exact List.Nodup.erase u (hs q' u').2
    · rw [if_neg hq, if_neg (by simp [hq])]
      exact hs q' u'
  · rw [if_neg hf, if_neg hf]
    exact hs q' u'

theorem queue_run_coherent (ops : List QueueOp) (s : QueueState)
    (hs : QueueCoherent s) : QueueCoherent (queue_run s ops) := by
  induction ops generalizing s with
  | nil => exact hs
  | cons op rest ih =>
    refine ih (queue_step s op) ?_
    cases op with
    | add q u => exact unit_add_to_queue_coherent s hs q u
    | remove q u => exact unit_remove_from_queue_coherent s hs q u

/-- C6: after any sequence of enqueue/dequeue operations starting from the
initial (empty) state, a unit is linked on queue Q's intrusive list exactly
when its corresponding `in_Q` flag is set; each operation mutates list and
flag together. -/
theorem c6_queue_flag_coherence (ops : List QueueOp) (q : EngineQueue) (u : UnitId) :
    u ∈ (queue_run queue_init ops).qlist q
      ↔ (queue_run queue_init ops).qflag u q = true :=
  (queue_run_coherent ops queue_init queue_init_coherent q u).1

/-! ### Start rate limiting (`start_limit`, `unit_test_start_limit`) -/

/-- The start rate limiter of a unit together with the transition
bookkeeping the bound is about: `rlBegin`/`num` are the `RateLimit` state
(window start timestamp, checks consumed in the window; `rlBegin = 0` means
the limiter has not started a window yet), `winCount` counts the
inactive→activating transitions granted inside the current window, and
`hit` is the unit's `start_limit_hit` flag (`start_limit_action` fired). -/
structure StartLimitState where
  rlBegin : Nat
  num : Nat
  winCount : Nat
  hit : Bool

def start_limit_init : StartLimitState := ⟨0, 0, 0, false⟩

/-- Modelled from the spec: `unit_test_start_limit(u)` at monotonic time
`now` (body not in the staged sources; the spec describes a token bucket
with monotonic-clock refill).  When the window is uninitialized or has
elapsed, a fresh window starts at `now` with its counter reset; the check
then consumes one token and grants the activating transition iff the
consumption count stays within `burst`; a denied check sets
`start_limit_hit` (triggering `start_limit_action`). -/
def unit_test_start_limit (interval burst : Nat) (s : StartLimitState)
    (now : Nat) : StartLimitState × Bool :=
  let s1 := if s.rlBegin = 0 ∨ s.rlBegin + interval < now then
      { s with rlBegin := now, num := 0, winCount := 0 }
    else s
  let num2 := s1.num + 1
  let ok := decide (num2 ≤ burst)
  ({ rlBegin := s1.rlBegin
     num := num2
     winCount := s1.winCount + (if ok then 1 else 0)
     hit := s.hit || !ok }, ok)

/-- Run the start-limit check over a list of attempt timestamps. -/
def start_limit_run (interval burst : Nat) : StartLimitState → List Nat → StartLimitState
  | s, [] => s
  | s, t :: rest => start_limit_run interval burst (unit_test_start_limit interval burst s t).1 rest

theorem unit_test_start_limit_winCount (interval burst : Nat) (s : StartLimitState)
    (now : Nat) (h : s.winCount = min s.num burst) :
    ((unit_test_start_limit interval burst s now).1).winCount
      = min ((unit_test_start_limit interval burst s now).1).num burst := by
  simp only [unit_test_start_limit]
  by_cases hr : s.rlBegin = 0 ∨ s.rlBegin + interval < now
  · rw [if_pos hr]
    by_cases hb : 0 + 1 ≤ burst
    · simp [hb]
      try omega
    · simp [hb]
      try omega
  · rw [if_neg hr]
    by_cases hb : s.num + 1 ≤ burst
    · simp [hb]
      try omega
    · simp [hb]
      try omega

theorem start_limit_run_winCount (interval burst : Nat) (ts : List Nat)
    (s : StartLimitState) (h : s.winCount = min s.num burst) :
    (start_limit_run interval burst s ts).winCount
      = min (start_limit_run interval burst s ts).num burst := by
  induction ts generalizing s with
  | nil => exact h
  | cons t rest ih =>
    exact ih (unit_test_start_limit interval burst s t).1
      (unit_test_start_limit_winCount interval burst s t h)

/-- C7: under the start rate limiter, every granted activating transition
consumes one token (the granted count in the current window always equals
`min` of the consumption counter and `burst`), so the number of
inactive→activating transitions granted within any window of the rate
limiter never exceeds `start_limit.burst`; and a denied check sets
`start_limit_hit`, firing `start_limit_action`. -/
theorem c7_start_rate_limit (interval burst : Nat) (ts : List Nat) :
    ((start_limit_run interval burst start_limit_init ts).winCount
        = min (start_limit_run interval burst start_limit_init ts).num burst)
    ∧ (start_limit_run interval burst start_limit_init ts).winCount ≤ burst
    ∧ (∀ s now, (unit_test_start_limit interval burst s now).2 = false →
        ((unit_test_start_limit interval burst s now).1).hit = true) := by
  have h1 := start_limit_run_winCount interval burst ts start_limit_init (by simp [start_limit_init])
  refine ⟨h1, ?_, ?_⟩
  · rw [h1]
    exact Nat.min_le_right _ _
  · intro s now hdeny
    simp only [unit_test_start_limit] at hdeny ⊢
    rw [hdeny]
    simp

/-! ### Merge chains (`unit_follow_merge`, `merged_into`) -/

/-- The merge bookkeeping of the manager's units: where each unit was merged
to (`merged_into`, unset for a survivor) and whether its `load_state` is
`UNIT_MERGED`. -/
structure MergeState where
  mergedInto : UnitId → Option UnitId
  merged : UnitId → Bool

def merge_init : MergeState := ⟨fun _ => none, fun _ => false⟩

/-- Modelled from the spec: the `merged_into`/`load_state` effect of one
successful `unit_merge(u, other)` (body not in the staged sources).  A merge
of a unit into itself does nothing, and a unit whose `load_state` is already
`merged` is never a merge source or target again; otherwise `other` gets
`load_state = merged` and `merged_into = u`. -/
def merge_record (s : MergeState) (u other : UnitId) : MergeState :=
  if u = other ∨ s.merged u = true ∨ s.merged other = true then s
  else
    { mergedInto := fun x => if x = other then some u else s.mergedInto x
      merged := fun x => if x = other then true else s.merged x }

def merge_run : MergeState → List (UnitId × UnitId) → MergeState
  | s, [] => s
  | s, (u, o) :: rest => merge_run (merge_record s u o) rest

/-- `unit_follow_merge(u)`: chase `merged_into` pointers, with explicit
fuel, stopping at the first unit whose `merged_into` is unset. -/
def unit_follow_merge (s : MergeState) : Nat → UnitId → UnitId
  | 0, x => x
  | fuel + 1, x =>
    match s.mergedInto x with
    | none => x
    | some y => unit_follow_merge s fuel y

/-- Only merged units have a `merged_into` pointer. -/
def MergedPointers (s : MergeState) : Prop :=
  ∀ x, s.merged x = false → s.mergedInto x = none

/-- The chase from `x` reaches a terminal unit within `n` steps. -/
def FollowTerm (s : MergeState) (n : Nat) (x : UnitId) : Prop :=
  s.mergedInto (unit_follow_merge s n x) = none

theorem unit_follow_merge_terminal (s : MergeState) (n : Nat) (x : UnitId)
    (h : s.mergedInto x = none) : unit_follow_merge s n x = x := by
  cases n with
  | zero => rfl
  | succ n => simp [unit_follow_merge, h]

theorem unit_follow_merge_step (s : MergeState) (n : Nat) (x y : UnitId)
    (h : s.mergedInto x = some y) :
    unit_follow_merge s (n + 1) x = unit_follow_merge s n y := by
  simp [unit_follow_merge, h]

theorem follow_term_add (s : MergeState) (n : Nat) (x : UnitId)
    (h : FollowTerm s n x) (k : Nat) :
    unit_follow_merge s (n + k) x = unit_follow_merge s n x := by
  induction n generalizing x with
  | zero =>
    have hx : s.mergedInto x = none := h
    rw [unit_follow_merge_terminal s (0 + k) x hx]
    rfl
  | succ n ih =>
    rcases hE : s.mergedInto x with _ | y
    · rw [unit_follow_merge_terminal s (n + 1 + k) x hE,
        unit_follow_merge_terminal s (n + 1) x hE]
    · have hstep : unit_follow_merge s (n + 1) x = unit_follow_merge s n y := by
        simp [unit_follow_merge, hE]
      have hstep2 : unit_follow_merge s (n + 1 + k) x = unit_follow_merge s (n + k) y := by
        have harith : n + 1 + k = (n + k) + 1 := by omega
        rw [harith]
        simp [unit_follow_merge, hE]
      have hterm : FollowTerm s n y := by
        unfold FollowTerm at h ⊢
        rwa [hstep] at h
      rw [hstep2, hstep, ih y hterm]

theorem follow_term_mono (s : MergeState) (n m : Nat) (x : UnitId)
    (h : FollowTerm s n x) (hnm : n ≤ m) : FollowTerm s m x := by
  unfold FollowTerm
  obtain ⟨k, rfl⟩ := Nat.exists_eq_add_of_le hnm
  rw [follow_term_add s n x h k]
  exact h

theorem merge_record_preserves (s : MergeState) (u o : UnitId) (n : Nat)
    (hp : MergedPointers s) (ht : ∀ x, FollowTerm s n x) :
    MergedPointers (merge_record s u o)
      ∧ ∀ x, FollowTerm (merge_record s u o) (n + 1) x := by
  unfold merge_record
  by_cases hguard : u = o ∨ s.merged u = true ∨ s.merged o = true
  · rw [if_pos hguard]
    exact ⟨hp, fun x => follow_term_mono s n (n + 1) x (ht x) (Nat.le_succ n)⟩
  · rw [if_neg hguard]
    simp only [not_or, Bool.not_eq_true] at hguard
    obtain ⟨huo, hmu, hmo⟩ := hguard
    set s' : MergeState :=
      { mergedInto := fun x => if x = o then some u else s.mergedInto x
        merged := fun x => if x = o then true else s.merged x } with hs'
    have hs'into : ∀ x, s'.mergedInto x = if x = o then some u else s.mergedInto x :=
      fun x => rfl
    have hu_term : s'.mergedInto u = none := by
      rw [hs'into]
      rw [if_neg huo]
      exact hp u hmu
    constructor
    · intro x hx
      rw [hs'into]
      by_cases hxo : x = o
      · exfalso
        have : s'.merged x = true := by
          show (if x = o then true else s.merged x) = true
          rw [if_pos hxo]
        rw [this] at hx
        exact Bool.true_eq_false.mp hx
      · rw [if_neg hxo]
        refine hp x ?_
        have : s'.merged x = s.merged x := by
          show (if x = o then true else s.merged x) = s.merged x
          rw [if_neg hxo]
        rwa [this] at hx
    · -- every chase terminates with one more step of fuel
      intro x0
      have key : ∀ m x, FollowTerm s m x → FollowTerm s' (m + 1) x := by
        intro m
        induction m with
        | zero =>
          intro x hx
          have hx0 : s.mergedInto x = none := hx
          by_cases hxo : x = o
          · subst hxo
            have h1 : s'.mergedInto x = some u := by
              rw [hs'into, if_pos rfl]
            unfold FollowTerm
            rw [unit_follow_merge_step s' 0 x u h1]
            exact hu_term
          · have h1 : s'.mergedInto x = none := by
              rw [hs'into, if_neg hxo]
              exact hx0
            unfold FollowTerm
            rw [unit_follow_merge_terminal s' (0 + 1) x h1]
            exact h1
        | succ m ih =>
          intro x hx
          rcases hE : s.mergedInto x with _ | y
          · by_cases hxo : x = o
            · subst hxo
              have h1 : s'.mergedInto x = some u := by
                rw [hs'into, if_pos rfl]
              unfold FollowTerm
              rw [unit_follow_merge_step s' (m + 1) x u h1,
                unit_follow_merge_terminal s' (m + 1) u hu_term]
              exact hu_term
            · have h1 : s'.mergedInto x = none := by
                rw [hs'into, if_neg hxo]
                exact hE
              unfold FollowTerm
              rw [unit_follow_merge_terminal s' (m + 1 + 1) x h1]
              exact h1
          · have hxo : ¬x = o := by
              intro hc
              subst hc
              rw [hp x hmo] at hE
              exact Option.noConfusion hE
            have h1 : s'.mergedInto x = some y := by
              rw [hs'into, if_neg hxo]
              exact hE
            have hy : FollowTerm s m y := by
              unfold FollowTerm at hx ⊢
              rwa [unit_follow_merge_step s m x y hE] at hx
            unfold FollowTerm
            rw [unit_follow_merge_step s' (m + 1) x y h1]
            exact ih y hy
      exact key n x0 (ht x0)

theorem merge_run_preserves (ops : List (UnitId × UnitId)) (s : MergeState) (n : Nat)
    (hp : MergedPointers s) (ht : ∀ x, FollowTerm s n x) :
    MergedPointers (merge_run s ops) ∧ ∀ x, FollowTerm (merge_run s ops) (n + ops.length) x := by
  induction ops generalizing s n with
  | nil => exact ⟨hp, ht⟩
  | cons p rest ih =>
    obtain ⟨u, o⟩ := p
    obtain ⟨hp', ht'⟩ := merge_record_preserves s u o n hp ht
    obtain ⟨hp2, ht2⟩ := ih (merge_record s u o) (n + 1) hp' ht'
    refine ⟨hp2, fun x => ?_⟩
    have h3 := ht2 x
    have harith : n + 1 + rest.length = n + ((u, o) :: rest).length := by
      simp only [List.length_cons]
      omega
    rw [harith] at h3
    exact h3

/-- C8: after any sequence of merges starting from the initial state (no
unit merged), chasing `merged_into` from any unit with fuel equal to the
number of merge operations reaches a terminal survivor whose `merged_into`
is unset, and giving any amount of extra fuel does not move past it — the
`merged_into` relation is cycle-free, because a merged unit is never again
a merge source or target. -/
theorem c8_follow_merge_terminates (ops : List (UnitId × UnitId)) (x : UnitId) :
    ((merge_run merge_init ops).mergedInto
        (unit_follow_merge (merge_run merge_init ops) ops.length x) = none)
    ∧ ∀ k, unit_follow_merge (merge_run merge_init ops) (ops.length + k) x
        = unit_follow_merge (merge_run merge_init ops) ops.length x := by
  have h0 : MergedPointers merge_init := fun x2 _ => rfl
  have h1 : ∀ x2, FollowTerm merge_init 0 x2 := fun x2 => rfl
  obtain ⟨hp, ht⟩ := merge_run_preserves ops merge_init 0 h0 h1
  have hx := ht x
  rw [Nat.zero_add] at hx
  exact ⟨hx, fun k => follow_term_add (merge_run merge_init ops) ops.length x hx k⟩

/-! ### Unit merging (`unit_merge`) -/

/-- `UnitLoadState` of the engine (stub, loaded, merged, not-found,
bad-setting, error, masked). -/
inductive UnitLoadState where
  | stub
  | loaded
  | merged
  | notFound
  | badSetting
  | loadError
  | masked
  deriving DecidableEq

/-- The slice of a `Unit` that `unit_merge` touches: canonical id, load
state, alias set, per-kind dependency map, and the `merged_into` pointer. -/
structure MUnit where
  id : String
  load_state : UnitLoadState
  names : List String
  deps : UnitDependency → UnitId → Option (Mask × Mask)
  merged_into : Option UnitId

/-- The manager state `unit_merge` works on: the units, the global list of
`UnitRef`s as (source, target) pairs, and the GC queue. -/
structure MState where
  units : UnitId → MUnit
  refs : List (UnitId × UnitId)
  gc_queue : List UnitId

/-- Load-state priority for survivor choice: loaded > merged > stub >
everything else. -/
def load_state_rank : UnitLoadState → Nat
  | .loaded => 3
  | .merged => 2
  | .stub => 1
  | _ => 0

def chars_le : List Char → List Char → Bool
  | [], _ => true
  | _ :: _, [] => false
  | c :: cs, d :: ds => if c = d then chars_le cs ds else decide (c < d)

/-- Lexicographic order on unit ids. -/
def str_le (a b : String) : Bool := chars_le a.data b.data

/-- Modelled from the spec: survivor choice of `unit_merge` — load-state
priority first, lexicographic id order as the tie break.  True when the
first unit survives. -/
def merge_survivor_is_first (a b : MUnit) : Bool :=
  if load_state_rank b.load_state < load_state_rank a.load_state then true
  else if load_state_rank a.load_state < load_state_rank b.load_state then false
  else str_le a.id b.id

/-- OR-union of two optional dependency-info values, per peer. -/
def udi_union : Option (Mask × Mask) → Option (Mask × Mask) → Option (Mask × Mask)
  | none, e => e
  | some p, none => some p
  | some (o1, d1), some (o2, d2) => some (o1 ||| o2, d1 ||| d2)

/-- Merging the victim `vt` into the survivor `sv`: the survivor unions the
name sets and OR-unions each `dependencies[kind]` map per peer; the victim
gets `load_state = merged` and `merged_into = sv`; every `UnitRef` whose
target was the victim is rewritten to point at the survivor; the victim is
scheduled for GC. -/
def merge_into (s : MState) (sv vt : UnitId) : MState :=
  { units := fun x =>
      if x = sv then
        { s.units sv with
            names := (s.units sv).names
              ++ (s.units vt).names.filter (fun n => decide (¬n ∈ (s.units sv).names))
            deps := fun k p => udi_union ((s.units sv).deps k p) ((s.units vt).deps k p) }
      else if x = vt then
        { s.units vt with load_state := .merged, merged_into := some sv }
      else s.units x
    refs := s.refs.map (fun r => if r.2 = vt then (r.1, sv) else r)
    gc_queue := s.gc_queue ++ [vt] }

/-- Modelled from the spec: `unit_merge(u, other)` (body not in the staged
sources).  Merging a unit with itself is a no-op; otherwise the survivor is
picked by load-state priority then lexicographic id order and the other
unit is merged into it. -/
def unit_merge (s : MState) (u o : UnitId) : MState :=
  if u = o then s
  else if merge_survivor_is_first (s.units u) (s.units o) then merge_into s u o
  else merge_into s o u

/-- C3: for distinct units with `u` the survivor (by load-state priority
loaded > merged > stub > others, then lexicographic id order),
`unit_merge(u, other)` sets `other.load_state = merged` and
`other.merged_into = u`, unions the name sets into the survivor, OR-unions
each `dependencies[kind]` map per peer, rewrites every `UnitRef` targeting
`other` to target `u`, and schedules `other` for GC; and `unit_merge(w, w)`
is a no-op. -/
theorem c3_merge_postconditions (s : MState) (u o : UnitId) (hne : u ≠ o)
    (hsv : merge_survivor_is_first (s.units u) (s.units o) = true) :
    ((unit_merge s u o).units o).load_state = .merged
    ∧ ((unit_merge s u o).units o).merged_into = some u
    ∧ (∀ n, n ∈ ((unit_merge s u o).units u).names
        ↔ (n ∈ (s.units u).names ∨ n ∈ (s.units o).names))
    ∧ (∀ k p, ((unit_merge s u o).units u).deps k p
        = udi_union ((s.units u).deps k p) ((s.units o).deps k p))
    ∧ (unit_merge s u o).refs
        = s.refs.map (fun r => if r.2 = o then (r.1, u) else r)
    ∧ o ∈ (unit_merge s u o).gc_queue
    ∧ (load_state_rank (s.units o).load_state < load_state_rank (s.units u).load_state
        ∨ (load_state_rank (s.units u).load_state = load_state_rank (s.units o).load_state
            ∧ str_le (s.units u).id (s.units o).id = true))
    ∧ (∀ w, unit_merge s w w = s) := by
  have hne' : o ≠ u := fun hc => hne hc.symm
  have hm : unit_merge s u o = merge_into s u o := by
    unfold unit_merge
    rw [if_neg hne, if_pos hsv]
  refine ⟨?_, ?_, ?_, ?_, ?_, ?_, ?_, ?_⟩
  · rw [hm]
    simp [merge_into, hne']
  · rw [hm]
    simp [merge_into, hne']
  · intro n
    rw [hm]
    simp only [merge_into, if_pos rfl]
    simp [List.mem_append, List.mem_filter]
    tauto
  · intro k p
    rw [hm]
    simp [merge_into]
  · rw [hm]
    rfl
  · rw [hm]
    simp [merge_into]
  · unfold merge_survivor_is_first at hsv
    by_cases h1 : load_state_rank (s.units o).load_state
        < load_state_rank (s.units u).load_state
    · exact Or.inl h1
    · rw [if_neg h1] at hsv
      by_cases h2 : load_state_rank (s.units u).load_state
          < load_state_rank (s.units o).load_state
      · rw [if_pos h2] at hsv
        exact absurd hsv (by simp)
      · rw [if_neg h2] at hsv
        exact Or.inr ⟨by omega, hsv⟩
  · intro w
    unfold unit_merge
    rw [if_pos rfl]

/-- A concrete two-unit manager: unit 0 is loaded, unit 1 a stub, one
`UnitRef` points at unit 1. -/
def c3_example_state : MState :=
  { units := fun x =>
      if x = 0 then
        { id := "a.service", load_state := .loaded, names := ["a.service"]
          deps := fun _ _ => none, merged_into := none }
      else
        { id := "b.service", load_state := .stub, names := ["b.service"]
          deps := fun _ _ => none, merged_into := none }
    refs := [(7, 1)]
    gc_queue := [] }

/-- Witness for C3 at the concrete state: merging unit 1 into unit 0. -/
theorem c3_merge_postconditions_witness :
    ((unit_merge c3_example_state 0 1).units 1).load_state = .merged
    ∧ ((unit_merge c3_example_state 0 1).units 1).merged_into = some 0
    ∧ (∀ n, n ∈ ((unit_merge c3_example_state 0 1).units 0).names
        ↔ (n ∈ (c3_example_state.units 0).names ∨ n ∈ (c3_example_state.units 1).names))
    ∧ (∀ k p, ((unit_merge c3_example_state 0 1).units 0).deps k p
        = udi_union ((c3_example_state.units 0).deps k p) ((c3_example_state.units 1).deps k p))
    ∧ (unit_merge c3_example_state 0 1).refs
        = c3_example_state.refs.map (fun r => if r.2 = 1 then (r.1, 0) else r)
    ∧ 1 ∈ (unit_merge c3_example_state 0 1).gc_queue
    ∧ (load_state_rank (c3_example_state.units 1).load_state
          < load_state_rank (c3_example_state.units 0).load_state
        ∨ (load_state_rank (c3_example_state.units 0).load_state
              = load_state_rank (c3_example_state.units 1).load_state
            ∧ str_le (c3_example_state.units 0).id (c3_example_state.units 1).id = true))
    ∧ (∀ w, unit_merge c3_example_state w w = c3_example_state) :=
  c3_merge_postconditions c3_example_state 0 1 (by decide) (by decide)

/-! ### Serialization across reload/reexec (`unit_serialize`, `unit_deserialize`,
`unit_coldplug`) -/

/-- A dual monotonic/wall-clock timestamp pair. -/
structure DualTimestamp where
  realtime : Nat
  monotonic : Nat
  deriving DecidableEq

/-- The observable per-unit state the serializer round-trips: names,
dependency edges with their provenance masks, the stamped timestamps, the
invocation id and the start rate-limiter state.  `job` is runtime-only
state (quiescent managers have none) and `coldplugged` records whether the
deserialized state has been put into effect. -/
structure SUnit where
  id : String
  names : List String
  deps : List (UnitDependency × String × Mask × Mask)
  state_change_ts : DualTimestamp
  inactive_exit_ts : DualTimestamp
  active_enter_ts : DualTimestamp
  active_exit_ts : DualTimestamp
  inactive_enter_ts : DualTimestamp
  invocation_id : Nat
  start_limit_begin : Nat
  start_limit_num : Nat
  job : Option Nat
  coldplugged : Bool
  deriving DecidableEq

/-- One `key=value` line of the serialization stream; each constructor is
one key, `unknownKey` stands for a key this engine version does not know
(skipped on deserialization for forward compatibility). -/
inductive SerLine where
  | idLine (v : String)
  | nameLine (v : String)
  | depLine (k : UnitDependency) (peer : String) (om dm : Mask)
  | stateChangeTs (v : DualTimestamp)
  | inactiveExitTs (v : DualTimestamp)
  | activeEnterTs (v : DualTimestamp)
  | activeExitTs (v : DualTimestamp)
  | inactiveEnterTs (v : DualTimestamp)
  | invocationId (v : Nat)
  | startLimitBegin (v : Nat)
  | startLimitNum (v : Nat)
  | unknownKey (key value : String)
  deriving DecidableEq

/-- An item of the whole manager's stream: a line of a unit record, or the
blank line terminating a record. -/
inductive SerItem where
  | line (l : SerLine)
  | blank
  deriving DecidableEq

/-- A freshly allocated unit on the deserializing manager. -/
def fresh_unit : SUnit :=
  { id := "", names := [], deps := []
    state_change_ts := ⟨0, 0⟩, inactive_exit_ts := ⟨0, 0⟩, active_enter_ts := ⟨0, 0⟩
    active_exit_ts := ⟨0, 0⟩, inactive_enter_ts := ⟨0, 0⟩
    invocation_id := 0, start_limit_begin := 0, start_limit_num := 0
    job := none, coldplugged := false }

/-- Modelled from the spec: `unit_serialize(u)` (body not in the staged
sources).  Writes the unit's id, every name, every dependency edge with its
two provenance masks, the timestamps, the invocation id and the
rate-limiter state, one key-value line each. -/
def unit_serialize (u : SUnit) : List SerLine :=
  SerLine.idLine u.id
    :: (u.names.map SerLine.nameLine
      ++ u.deps.map (fun d => SerLine.depLine d.1 d.2.1 d.2.2.1 d.2.2.2)
      ++ [SerLine.stateChangeTs u.state_change_ts,
          SerLine.inactiveExitTs u.inactive_exit_ts,
          SerLine.activeEnterTs u.active_enter_ts,
          SerLine.activeExitTs u.active_exit_ts,
          SerLine.inactiveEnterTs u.inactive_enter_ts,
          SerLine.invocationId u.invocation_id,
          SerLine.startLimitBegin u.start_limit_begin,
          SerLine.startLimitNum u.start_limit_num])

/-- Modelled from the spec: restoring one serialized item into a unit
(`unit_deserialize` loop body).  Only records the intended state; an
unknown key is skipped. -/
def unit_deserialize_item (u : SUnit) : SerLine → SUnit
  | .idLine v => { u with id := v }
  | .nameLine v => { u with names := u.names ++ [v] }
  | .depLine k p om dm => { u with deps := u.deps ++ [(k, p, om, dm)] }
  | .stateChangeTs v => { u with state_change_ts := v }
  | .inactiveExitTs v => { u with inactive_exit_ts := v }
  | .activeEnterTs v => { u with active_enter_ts := v }
  | .activeExitTs v => { u with active_exit_ts := v }
  | .inactiveEnterTs v => { u with inactive_enter_ts := v }
  | .invocationId v => { u with invocation_id := v }
  | .startLimitBegin v => { u with start_limit_begin := v }
  | .startLimitNum v => { u with start_limit_num := v }
  | .unknownKey _ _ => u

/-- `unit_deserialize`: fold the record's lines into a unit, recording
state only (`coldplugged` stays false until `unit_coldplug`). -/
def unit_deserialize (ls : List SerLine) (u : SUnit) : SUnit :=
  ls.foldl unit_deserialize_item u

/-- `unit_coldplug(u)`: put the recorded state into effect. -/
def unit_coldplug (u : SUnit) : SUnit := { u with coldplugged := true }

/-- Serialize a whole quiescent manager: each unit's record followed by a
blank line. -/
def manager_serialize : List SUnit → List SerItem
  | [] => []
  | u :: rest => (unit_serialize u).map SerItem.line ++ SerItem.blank :: manager_serialize rest

/-- Deserialize a stream onto a fresh manager: collect lines until the
blank record terminator, then build the unit from them. -/
def manager_deserialize : List SerItem → List SerLine → List SUnit
  | [], _ => []
  | .line l :: rest, acc => manager_deserialize rest (acc ++ [l])
  | .blank :: rest, acc => unit_deserialize acc fresh_unit :: manager_deserialize rest []

theorem unit_deserialize_append (ls1 ls2 : List SerLine) (u : SUnit) :
    unit_deserialize (ls1 ++ ls2) u = unit_deserialize ls2 (unit_deserialize ls1 u) := by
  simp [unit_deserialize, List.foldl_append]

theorem unit_deserialize_names (ns : List String) (u : SUnit) :
    unit_deserialize (ns.map SerLine.nameLine) u = { u with names := u.names ++ ns } := by
  induction ns generalizing u with
  | nil => simp [unit_deserialize]
  | cons n rest ih =>
    simp only [List.map_cons, unit_deserialize, List.foldl_cons]
    rw [show (unit_deserialize_item u (SerLine.nameLine n)) = { u with names := u.names ++ [n] }
      from rfl] at *
    have h2 := ih { u with names := u.names ++ [n] }
    simp only [unit_deserialize] at h2
    rw [h2]
    simp

theorem unit_deserialize_deps (ds : List (UnitDependency × String × Mask × Mask)) (u : SUnit) :
    unit_deserialize (ds.map (fun d => SerLine.depLine d.1 d.2.1 d.2.2.1 d.2.2.2)) u
      = { u with deps := u.deps ++ ds } := by
  induction ds generalizing u with
  | nil => simp [unit_deserialize]
  | cons d rest ih =>
    simp only [List.map_cons, unit_deserialize, List.foldl_cons]
    have h2 := ih { u with deps := u.deps ++ [(d.1, d.2.1, d.2.2.1, d.2.2.2)] }
    simp only [unit_deserialize] at h2
    rw [show (unit_deserialize_item u (SerLine.depLine d.1 d.2.1 d.2.2.1 d.2.2.2))
      = { u with deps := u.deps ++ [(d.1, d.2.1, d.2.2.1, d.2.2.2)] } from rfl]
    rw [h2]
    simp

theorem unit_round_trip (u : SUnit) (hjob : u.job = none) (hcold : u.coldplugged = false) :
    unit_deserialize (unit_serialize u) fresh_unit = u := by
  obtain ⟨uid, names, deps, ts1, ts2, ts3, ts4, ts5, inv, slb, sln, job, cold⟩ := u
  simp only at hjob hcold
  subst hjob hcold
  simp only [unit_serialize, unit_deserialize, List.foldl_cons]
  rw [show (unit_deserialize_item fresh_unit (SerLine.idLine uid))
    = { fresh_unit with id := uid } from rfl]
  rw [← unit_deserialize]
  rw [unit_deserialize_append, unit_deserialize_append]
  rw [unit_deserialize_names, unit_deserialize_deps]
  simp [unit_deserialize, unit_deserialize_item, fresh_unit]

theorem manager_deserialize_lines (ls : List SerLine) (rest : List SerItem)
    (acc : List SerLine) :
    manager_deserialize (ls.map SerItem.line ++ rest) acc
      = manager_deserialize rest (acc ++ ls) := by
  induction ls generalizing acc with
  | nil => simp
  | cons l rest2 ih =>
    simp only [List.map_cons, List.cons_append, manager_deserialize, List.append_eq]
    rw [ih]
    simp

/-- C2: for a quiescent manager (no unit has a job and none is coldplugged
yet), deserializing the serialized stream onto a fresh manager reproduces
every unit exactly — names, dependency edges with provenance masks,
timestamps, invocation ids and rate-limiter state — and only records the
state: no deserialized unit is coldplugged until `unit_coldplug` runs,
which alone puts the state into effect. -/
theorem c2_serialize_round_trip (M : List SUnit)
    (hq : ∀ v ∈ M, v.job = none ∧ v.coldplugged = false) :
    manager_deserialize (manager_serialize M) [] = M
    ∧ (∀ v ∈ manager_deserialize (manager_serialize M) [], v.coldplugged = false)
    ∧ (∀ v : SUnit, (unit_coldplug v).coldplugged = true) := by
  have hmain : manager_deserialize (manager_serialize M) [] = M := by
    induction M with
    | nil => rfl
    | cons u rest ih =>
      simp only [manager_serialize]
      rw [manager_deserialize_lines]
      simp only [manager_deserialize, List.nil_append]
      have hu := hq u (List.mem_cons_self u rest)
      rw [unit_round_trip u hu.1 hu.2]
      rw [ih (fun v hv => hq v (List.mem_cons_of_mem u hv))]
  refine ⟨hmain, ?_, fun v => rfl⟩
  rw [hmain]
  intro v hv
  exact (hq v hv).2

/-- A concrete quiescent two-unit manager for the C2 witness. -/
def c2_example_manager : List SUnit :=
  [{ id := "a.service", names := ["a.service", "a-alias.service"]
     deps := [(.wants, "b.service", UNIT_DEPENDENCY_FILE, 0)]
     state_change_ts := ⟨10, 11⟩, inactive_exit_ts := ⟨12, 13⟩
     active_enter_ts := ⟨14, 15⟩, active_exit_ts := ⟨0, 0⟩
     inactive_enter_ts := ⟨0, 0⟩, invocation_id := 42
     start_limit_begin := 14, start_limit_num := 1
     job := none, coldplugged := false },
   { id := "b.service", names := ["b.service"]
     deps := [(.wantedBy, "a.service", 0, UNIT_DEPENDENCY_FILE)]
     state_change_ts := ⟨20, 21⟩, inactive_exit_ts := ⟨22, 23⟩
     active_enter_ts := ⟨24, 25⟩, active_exit_ts := ⟨0, 0⟩
     inactive_enter_ts := ⟨0, 0⟩, invocation_id := 43
     start_limit_begin := 24, start_limit_num := 1
     job := none, coldplugged := false }]

/-- Witness for C2 at the concrete quiescent manager. -/
theorem c2_serialize_round_trip_witness :
    manager_deserialize (manager_serialize c2_example_manager) [] = c2_example_manager
    ∧ (∀ v ∈ manager_deserialize (manager_serialize c2_example_manager) [],
        v.coldplugged = false)
    ∧ (∀ v : SUnit, (unit_coldplug v).coldplugged = true) :=
  c2_serialize_round_trip c2_example_manager (by decide)
